import Mathlib

/-!
Shallow embedding of the todo-mcp-server core (src/types.ts `TodoDatabase`,
src/todo-service.ts `TodoService`).

Modelling conventions:
* The SQLite `todos` table is a `List Todo` in insertion order; `SELECT ... ORDER BY`
  is modelled by filtering then insertion-sorting.
* ISO timestamp strings are kept as `String`; SQLite TEXT comparison (memcmp)
  is modelled by the `String` linear order.
* The `tags` column stores `JSON.stringify` of the tag array.  Since
  `JSON.parse (JSON.stringify l) = l` for arrays of strings, the stored row keeps
  the tag list itself; the serialized text (needed by the `tags LIKE ?` filter)
  is recomputed by `jsonTags`.
* JavaScript `undefined` / SQL `NULL` are both `Option.none`.
* A field of a JS object passed to object spread is tri-state: key absent,
  key present with value `undefined`, or key present with a value (`JsField`).
* `new Date(s)` validity (`!isNaN(new Date(s).getTime())`) is abstracted as an
  explicit `dateValid : String → Bool` parameter: the claims depend only on the
  branch structure, never on which strings the JS date grammar accepts.
* SQLite's `LIKE` is ASCII case-insensitive; `lowChar` is that ASCII folding
  (also used for JS `toLowerCase`, whose non-ASCII case mapping is not modelled).
-/

namespace TodoSpec

inductive Priority where
  | low
  | medium
  | high
deriving DecidableEq, Repr

/-- Task record as stored in / returned from the database (src/types.ts `Todo`). -/
structure Todo where
  id : String
  title : String
  description : Option String
  completed : Bool
  priority : Priority
  dueDate : Option String
  tags : List String
  createdAt : String
  updatedAt : String
deriving DecidableEq, Repr

/-- Tri-state JS object field: key absent, key present holding `undefined`,
or key present holding a value. -/
inductive JsField (α : Type) where
  | absent
  | undef
  | val (a : α)
deriving DecidableEq, Repr

/-- `UpdateTodoInput` as it reaches `TodoService.updateTodo` / the object spread. -/
structure UpdateInput where
  title : JsField String
  description : JsField String
  completed : JsField Bool
  priority : JsField Priority
  dueDate : JsField String
  tags : JsField (List String)
deriving DecidableEq, Repr

/-- `CreateTodoInput` (title required; optional fields as `Option`). -/
structure CreateInput where
  title : String
  description : Option String
  priority : Option Priority
  dueDate : Option String
  tags : Option (List String)
deriving DecidableEq, Repr

/-- `TodoFilter` (src/types.ts). -/
structure TodoFilter where
  completed : Option Bool := none
  priority : Option Priority := none
  tag : Option String := none
  dueBefore : Option String := none
  dueAfter : Option String := none
deriving DecidableEq, Repr

def emptyFilter : TodoFilter := {}

/-! ### ASCII case folding, trimming and substring matching -/

/-- Whitespace as trimmed by JS `String.prototype.trim` (ASCII part; the
claims never exercise Unicode space separators). -/
def isWS (c : Char) : Bool :=
  c == ' ' || c == '\t' || c == '\n' || c == '\x0d' || c == '\x0b' || c == '\x0c'

/-- JS `String.prototype.trim`, list-based. -/
def jsTrim (s : String) : String :=
  ⟨((s.data.dropWhile isWS).reverse.dropWhile isWS).reverse⟩

instance {ε α : Type} [DecidableEq ε] [DecidableEq α] : DecidableEq (Except ε α) :=
  fun x y =>
    match x, y with
    | Except.ok a, Except.ok b =>
      if h : a = b then Decidable.isTrue (h ▸ rfl)
      else Decidable.isFalse fun he => h (Except.ok.inj he)
    | Except.error a, Except.error b =>
      if h : a = b then Decidable.isTrue (h ▸ rfl)
      else Decidable.isFalse fun he => h (Except.error.inj he)
    | Except.ok _, Except.error _ => Decidable.isFalse fun he => Except.noConfusion he
    | Except.error _, Except.ok _ => Decidable.isFalse fun he => Except.noConfusion he

/-- ASCII lower-casing: what SQLite `LIKE` applies to both operands and what
JS `toLowerCase` does on ASCII. -/
def lowChar (c : Char) : Char :=
  if 65 ≤ c.toNat ∧ c.toNat ≤ 90 then Char.ofNat (c.toNat + 32) else c

def lowStr (s : String) : String := ⟨s.data.map lowChar⟩

/-- Boolean list-prefix test. -/
def isPref : List Char → List Char → Bool
  | [], _ => true
  | _ :: _, [] => false
  | a :: as, b :: bs => a == b && isPref as bs

/-- Boolean substring test (JS `String.prototype.includes` on the char lists). -/
def infB (n h : List Char) : Bool :=
  (List.range (h.length + 1)).any fun k => isPref n (h.drop k)

/-- SQLite `LIKE` matcher: `%` matches any run of characters, `_` any single
character, other characters compare ASCII case-insensitively.  Recursion is
structural on the pattern; the `%` arm quantifies over how many characters it
consumes. -/
def sqlLike : List Char → List Char → Bool
  | [], s => s.isEmpty
  | p :: ps, s =>
    if p = '%' then
      (List.range (s.length + 1)).any fun k => sqlLike ps (s.drop k)
    else
      match s with
      | [] => false
      | c :: s' => (if p = '_' then true else lowChar p == lowChar c) && sqlLike ps s'

/-! ### JSON serialization of the tags column (`JSON.stringify` of a string array) -/

def hexDig (n : Nat) : Char :=
  if n < 10 then Char.ofNat (48 + n) else Char.ofNat (87 + n)

/-- Character escaping of `JSON.stringify` inside a string literal. -/
def jsonEscapeChar (c : Char) : List Char :=
  if c = '"' then ['\\', '"']
  else if c = '\\' then ['\\', '\\']
  else if c.toNat < 32 then
    if c = '\x08' then ['\\', 'b']
    else if c = '\x09' then ['\\', 't']
    else if c = '\x0a' then ['\\', 'n']
    else if c = '\x0c' then ['\\', 'f']
    else if c = '\x0d' then ['\\', 'r']
    else ['\\', 'u', '0', '0', hexDig (c.toNat / 16), hexDig (c.toNat % 16)]
  else [c]

def jsonQuoteL (u : List Char) : List Char :=
  '"' :: (u.flatMap jsonEscapeChar) ++ ['"']

def jsonItemsL : List (List Char) → List Char
  | [] => []
  | [u] => jsonQuoteL u
  | u :: us => jsonQuoteL u ++ ',' :: jsonItemsL us

/-- `JSON.stringify(tags)` for a string array. -/
def jsonTags (tags : List String) : List Char :=
  '[' :: jsonItemsL (tags.map (·.data)) ++ [']']

/-! ### Database layer (src/types.ts `TodoDatabase`) -/

/-- `SELECT * FROM todos WHERE id = ?` via `stmt.get`. -/
def findTodo (id : String) (store : List Todo) : Option Todo :=
  store.find? fun r => r.id == id

/-- Binding `x || null`: JS coerces both `undefined` and `""` to `null`. -/
def nullifyEmpty : Option String → Option String
  | none => none
  | some s => if s = "" then none else some s

/-- The WHERE clause assembled by `TodoDatabase.getAllTodos`.  Falsy filter
values (`undefined`, and `""` for the string fields) add no condition; the tag
condition is `tags LIKE '%"t"%'` against the serialized tags column; the date
bounds are SQL comparisons, never satisfied by a NULL `due_date`. -/
def matchesFilter (f : TodoFilter) (r : Todo) : Bool :=
  (match f.completed with
   | none => true
   | some b => r.completed == b) &&
  (match f.priority with
   | none => true
   | some p => r.priority == p) &&
  (match f.dueBefore with
   | none => true
   | some s =>
     if s = "" then true
     else match r.dueDate with
       | none => false
       | some d => decide (d ≤ s)) &&
  (match f.dueAfter with
   | none => true
   | some s =>
     if s = "" then true
     else match r.dueDate with
       | none => false
       | some d => decide (s ≤ d)) &&
  (match f.tag with
   | none => true
   | some t =>
     if t = "" then true
     else sqlLike ('%' :: '"' :: t.data ++ ['"', '%']) (jsonTags r.tags))

/-- `ORDER BY created_at DESC`. -/
def createdDesc (a b : Todo) : Prop := b.createdAt ≤ a.createdAt

instance : DecidableRel createdDesc := fun a b =>
  inferInstanceAs (Decidable (b.createdAt ≤ a.createdAt))

/-- `ORDER BY due_date ASC` (SQL NULLs order first, irrelevant after the
`due_date IS NOT NULL` filter). -/
def dueAsc (a b : Todo) : Prop :=
  match a.dueDate, b.dueDate with
  | none, _ => True
  | some _, none => False
  | some x, some y => x ≤ y

instance : DecidableRel dueAsc := fun a b => by
  unfold dueAsc
  cases a.dueDate <;> cases b.dueDate <;> infer_instance

/-- `TodoDatabase.getAllTodos`. -/
def dbGetAllTodos (f : TodoFilter) (store : List Todo) : List Todo :=
  List.insertionSort createdDesc (store.filter (matchesFilter f))

/-- The overdue WHERE clause: `completed = 0 AND due_date IS NOT NULL AND due_date < ?`. -/
def overdueB (now : String) (r : Todo) : Bool :=
  !r.completed &&
    (match r.dueDate with
     | none => false
     | some d => decide (d < now))

/-- `TodoDatabase.getOverdueTodos`. -/
def dbGetOverdueTodos (now : String) (store : List Todo) : List Todo :=
  List.insertionSort dueAsc (store.filter (overdueB now))

/-- JS `Set.prototype.add` (first occurrence wins the position). -/
def setAdd (acc : List String) (s : String) : List String :=
  if s ∈ acc then acc else acc ++ [s]

/-- Lexicographic-ascending comparison of the default JS `Array.prototype.sort()`
(code-unit comparison; code points coincide for the BMP). -/
def charListLe : List Char → List Char → Bool
  | [], _ => true
  | _ :: _, [] => false
  | a :: as, b :: bs =>
    if a.toNat < b.toNat then true
    else if b.toNat < a.toNat then false
    else charListLe as bs

def lexLe (a b : String) : Prop := charListLe a.data b.data = true

instance : DecidableRel lexLe := fun a b =>
  inferInstanceAs (Decidable (charListLe a.data b.data = true))

/-- `TodoDatabase.getAllTags`: `SELECT DISTINCT tags ... WHERE tags IS NOT NULL
AND tags != '[]'` (the tags column is never NULL; `DISTINCT` on the serialized
text is modelled by `dedup` on the lists, faithful since serialization is
injective), union into a JS `Set`, then default lexicographic `sort()`. -/
def dbGetAllTags (store : List Todo) : List String :=
  List.insertionSort lexLe
    ((((store.map (·.tags)).filter (· ≠ [])).dedup.flatten).foldl setAdd [])

/-- `TodoDatabase.createTodo`, with the generated `crypto.randomUUID()` and
`new Date().toISOString()` passed explicitly.  Returns the in-memory `todo`
object and the new table; a duplicate id violates the PRIMARY KEY constraint. -/
def dbCreateTodo (id now : String) (input : CreateInput) (store : List Todo) :
    Except String Todo × List Todo :=
  let todo : Todo :=
    { id := id
      title := input.title
      description := input.description
      completed := false
      priority := input.priority.getD Priority.medium
      dueDate := input.dueDate
      tags := input.tags.getD []
      createdAt := now
      updatedAt := now }
  if (findTodo id store).isSome then
    (Except.error "UNIQUE constraint failed: todos.id", store)
  else
    -- the INSERT binds `description || null`, `dueDate || null`
    let row : Todo :=
      { todo with
        description := nullifyEmpty todo.description
        dueDate := nullifyEmpty todo.dueDate }
    (Except.ok todo, store ++ [row])

/-- The object produced by `{ ...existing, ...input, updatedAt: now }`: required
fields may have become `undefined` when the input held the key with value
`undefined`. -/
structure MergedTodo where
  id : String
  title : Option String
  description : Option String
  completed : Option Bool
  priority : Option Priority
  dueDate : Option String
  tags : Option (List String)
  createdAt : String
  updatedAt : String
deriving DecidableEq, Repr

/-- Spread override of a required field: an absent key keeps the old value, a
key present with `undefined` clobbers it. -/
def mergeReq {α : Type} (e : α) : JsField α → Option α
  | JsField.absent => some e
  | JsField.undef => none
  | JsField.val v => some v

/-- Spread override of an optional field. -/
def mergeOpt {α : Type} (e : Option α) : JsField α → Option α
  | JsField.absent => e
  | JsField.undef => none
  | JsField.val v => some v

def spreadMerge (e : Todo) (input : UpdateInput) (now : String) : MergedTodo :=
  { id := e.id
    title := mergeReq e.title input.title
    description := mergeOpt e.description input.description
    completed := mergeReq e.completed input.completed
    priority := mergeReq e.priority input.priority
    dueDate := mergeOpt e.dueDate input.dueDate
    tags := mergeReq e.tags input.tags
    createdAt := e.createdAt
    updatedAt := now }

/-- Error raised by `better-sqlite3` when `stmt.run` receives `undefined`:
hit by the raw-bound parameters `title`, `priority` and
`JSON.stringify(tags)` (which is `undefined` for `tags = undefined`). -/
def bindErr : String := "SQLite3 can only bind numbers, strings, bigints, buffers, and null"

/-- `TodoDatabase.updateTodo`.  Returns `none` when the id does not exist
(source returns `null`); otherwise throws on an `undefined` binding, or writes
the row and returns the in-memory merged object. -/
def dbUpdateTodo (id now : String) (input : UpdateInput) (store : List Todo) :
    Except String (Option MergedTodo) × List Todo :=
  match findTodo id store with
  | none => (Except.ok none, store)
  | some existing =>
    let m := spreadMerge existing input now
    match m.title, m.priority, m.tags with
    | some title, some priority, some tags =>
      let row : Todo :=
        { id := existing.id
          title := title
          description := nullifyEmpty m.description
          completed := m.completed == some true
          priority := priority
          dueDate := nullifyEmpty m.dueDate
          tags := tags
          createdAt := existing.createdAt
          updatedAt := now }
      (Except.ok (some m), store.map fun r => if r.id == id then row else r)
    | _, _, _ => (Except.error bindErr, store)

/-- `TodoDatabase.deleteTodo`: `DELETE ... WHERE id = ?`, true iff a row went away. -/
def dbDeleteTodo (id : String) (store : List Todo) : Bool × List Todo :=
  let remaining := store.filter fun r => r.id != id
  (decide (remaining.length < store.length), remaining)

/-! ### Service layer (src/todo-service.ts `TodoService`) -/

/-- `TodoService.createTodo`: validates, normalizes, then calls the database. -/
def svcCreateTodo (dateValid : String → Bool) (id now : String) (input : CreateInput)
    (store : List Todo) : Except String Todo × List Todo :=
  if jsTrim input.title = "" then (Except.error "Todo title is required", store)
  else if (match input.dueDate with
           | some s => s != "" && !dateValid s
           | none => false) then (Except.error "Invalid due date format", store)
  else
    -- the priority check cannot fail: `priority` is enum-typed in the model
    dbCreateTodo id now
      { input with
        title := jsTrim input.title
        description := input.description.map jsTrim
        tags := some (((input.tags.getD []).filter (jsTrim · ≠ "")).map jsTrim) }
      store

/-- `TodoService.getTodoById`. -/
def svcGetTodoById (id : String) (store : List Todo) : Except String (Option Todo) :=
  if jsTrim id = "" then Except.error "Todo ID is required"
  else Except.ok (findTodo id store)

/-- `TodoService.getAllTodos` (pass-through). -/
def svcGetAllTodos (f : TodoFilter) (store : List Todo) : List Todo :=
  dbGetAllTodos f store

/-- The in-place normalization of `updateData` in `TodoService.updateTodo`:
a truthy title is trimmed, a present (non-`undefined`) description is trimmed,
truthy tags are filtered and trimmed. -/
def normUpdateInput (input : UpdateInput) : UpdateInput :=
  { input with
    title :=
      match input.title with
      | JsField.val s => if s ≠ "" then JsField.val (jsTrim s) else JsField.val s
      | x => x
    description :=
      match input.description with
      | JsField.val s => JsField.val (jsTrim s)
      | x => x
    tags :=
      match input.tags with
      | JsField.val l => JsField.val ((l.filter (jsTrim · ≠ "")).map jsTrim)
      | x => x }

/-- `TodoService.updateTodo`: id check, existence check, field validation
(`input.title !== undefined && !jsTrim input.title()`; `if (input.dueDate)` with
the date parse check), normalization, then `TodoDatabase.updateTodo`. -/
def svcUpdateTodo (dateValid : String → Bool) (id : String) (input : UpdateInput)
    (now : String) (store : List Todo) : Except String MergedTodo × List Todo :=
  if jsTrim id = "" then (Except.error "Todo ID is required", store)
  else
    match findTodo id store with
    | none => (Except.error ("Todo with ID " ++ id ++ " not found"), store)
    | some _ =>
      if (match input.title with
          | JsField.val s => jsTrim s == ""
          | _ => false) then (Except.error "Todo title cannot be empty", store)
      else if (match input.dueDate with
               | JsField.val s => s != "" && !dateValid s
               | _ => false) then (Except.error "Invalid due date format", store)
      else
        match dbUpdateTodo id now (normUpdateInput input) store with
        | (Except.ok (some m), store') => (Except.ok m, store')
        | (Except.ok none, store') =>
          (Except.error ("Failed to update todo with ID " ++ id), store')
        | (Except.error e, store') => (Except.error e, store')

/-- `TodoService.deleteTodo`. -/
def svcDeleteTodo (id : String) (store : List Todo) : Except String Bool × List Todo :=
  if jsTrim id = "" then (Except.error "Todo ID is required", store)
  else
    match findTodo id store with
    | none => (Except.error ("Todo with ID " ++ id ++ " not found"), store)
    | some _ =>
      let p := dbDeleteTodo id store
      (Except.ok p.1, p.2)

/-- The object literal `{ completed: true }`: only the `completed` key exists. -/
def completeInput : UpdateInput :=
  { title := JsField.absent
    description := JsField.absent
    completed := JsField.val true
    priority := JsField.absent
    dueDate := JsField.absent
    tags := JsField.absent }

/-- `TodoService.completeTodo`. -/
def svcCompleteTodo (dateValid : String → Bool) (id now : String) (store : List Todo) :
    Except String MergedTodo × List Todo :=
  svcUpdateTodo dateValid id completeInput now store

/-- The per-record predicate of `TodoService.searchTodos`. -/
def searchMatch (term : String) (r : Todo) : Bool :=
  infB term.data (lowStr r.title).data ||
  (match r.description with
   | none => false
   | some d => infB term.data (lowStr d).data) ||
  r.tags.any fun u => infB term.data (lowStr u).data

/-- `TodoService.searchTodos`: blank query falls back to the full unfiltered
listing; otherwise filter the full listing by the lowercased trimmed term. -/
def svcSearchTodos (q : String) (store : List Todo) : List Todo :=
  if jsTrim q = "" then dbGetAllTodos emptyFilter store
  else (dbGetAllTodos emptyFilter store).filter (searchMatch (jsTrim (lowStr q)))

/-- `TodoService.getAllTags` (pass-through). -/
def svcGetAllTags (store : List Todo) : List String :=
  dbGetAllTags store

structure ByPriority where
  low : Nat
  medium : Nat
  high : Nat
deriving DecidableEq, Repr

structure Stats where
  total : Nat
  completed : Nat
  pending : Nat
  overdue : Nat
  byPriority : ByPriority
deriving DecidableEq, Repr

/-- One step of the `reduce` accumulating per-priority counts. -/
def bumpPriority (acc : ByPriority) (t : Todo) : ByPriority :=
  match t.priority with
  | Priority.low => { acc with low := acc.low + 1 }
  | Priority.medium => { acc with medium := acc.medium + 1 }
  | Priority.high => { acc with high := acc.high + 1 }

/-- `TodoService.getStats` (the overdue query reads its own clock; modelled by
the single explicit `now`). -/
def svcGetStats (now : String) (store : List Todo) : Stats :=
  { total := (dbGetAllTodos emptyFilter store).length
    completed := ((dbGetAllTodos emptyFilter store).filter (fun r => r.completed)).length
    pending := (dbGetAllTodos emptyFilter store).length -
      ((dbGetAllTodos emptyFilter store).filter (fun r => r.completed)).length
    overdue := (dbGetOverdueTodos now store).length
    byPriority := (dbGetAllTodos emptyFilter store).foldl bumpPriority ⟨0, 0, 0⟩ }

/-! ### Generic lemmas about the substring machinery -/

theorem isPref_iff : ∀ n h : List Char, isPref n h = true ↔ n <+: h
  | [], h => by simp [isPref]
  | _ :: _, [] => by simp [isPref]
  | a :: n, b :: h => by
    simp [isPref, Bool.and_eq_true, isPref_iff n h, List.cons_prefix_cons]

theorem exists_drop_prefix_iff {n h : List Char} :
    (∃ k, k ≤ h.length ∧ n <+: h.drop k) ↔ n <:+: h := by
  constructor
  · rintro ⟨k, -, t, ht⟩
    exact ⟨h.take k, t, by rw [List.append_assoc, ht, List.take_append_drop]⟩
  · rintro ⟨s, t, hst⟩
    refine ⟨s.length, ?_, t, ?_⟩
    · rw [← hst, List.length_append, List.length_append]; omega
    · rw [← hst, List.append_assoc, List.drop_left]

theorem infB_iff {n h : List Char} : infB n h = true ↔ n <:+: h := by
  rw [← exists_drop_prefix_iff]
  simp [infB, List.any_eq_true, isPref_iff, Nat.lt_succ_iff]

/-- Patterns free of the `LIKE` wildcards. -/
def noWild (p : List Char) : Prop := ∀ c ∈ p, c ≠ '%' ∧ c ≠ '_'

theorem sqlLike_noWild_pct : ∀ p : List Char, noWild p → ∀ s : List Char,
    (sqlLike (p ++ ['%']) s = true ↔ p.map lowChar <+: s.map lowChar)
  | [], _, s => by
    simp only [List.nil_append, List.map_nil, List.nil_prefix, iff_true]
    have hrw : sqlLike ['%'] s =
        (List.range (s.length + 1)).any fun k => sqlLike [] (s.drop k) := by
      simp [sqlLike]
    rw [hrw]
    simp only [List.any_eq_true, List.mem_range]
    exact ⟨s.length, by omega, by simp [sqlLike]⟩
  | c :: p, h, s => by
    have hcp : c ≠ '%' := (h c (by simp)).1
    have hcu : c ≠ '_' := (h c (by simp)).2
    cases s with
    | nil =>
      simp [sqlLike, hcp]
    | cons d s =>
      simp [sqlLike, hcp, hcu, Bool.and_eq_true,
        sqlLike_noWild_pct p (fun x hx => h x (List.mem_cons_of_mem _ hx)) s,
        List.cons_prefix_cons]

theorem sqlLike_pct_wrap (p : List Char) (h : noWild p) (s : List Char) :
    sqlLike ('%' :: p ++ ['%']) s = true ↔ p.map lowChar <:+: s.map lowChar := by
  rw [← exists_drop_prefix_iff]
  have : sqlLike ('%' :: p ++ ['%']) s =
      (List.range (s.length + 1)).any fun k => sqlLike (p ++ ['%']) (s.drop k) := by
    simp [sqlLike]
  rw [this]
  simp only [List.any_eq_true, List.mem_range, Nat.lt_succ_iff]
  constructor
  · rintro ⟨k, hk, hlike⟩
    exact ⟨k, by simpa using hk, by
      have := (sqlLike_noWild_pct p h _).mp hlike
      rwa [← List.map_drop]⟩
  · rintro ⟨k, hk, hpre⟩
    exact ⟨k, by simpa using hk, (sqlLike_noWild_pct p h _).mpr (by rwa [List.map_drop])⟩

/-! ### The claims -/

/-- C9: `completeTodo(id)` is observationally equal to
`updateTodo(id, { completed: true })` — same result and same final store, for
every id, clock reading, date validator and store state. -/
theorem claim_C9 (dateValid : String → Bool) (id now : String) (store : List Todo) :
    svcCompleteTodo dateValid id now store =
      svcUpdateTodo dateValid id completeInput now store := rfl

/-- C10: for every blank (empty or whitespace-only) id, the service operations
getTodoById, updateTodo and deleteTodo fail with the 'Todo ID is required'
validation error — not a not-found result or `false` — and the store is left
unchanged. -/
theorem claim_C10 (id : String) (store : List Todo) (dateValid : String → Bool)
    (input : UpdateInput) (now : String) (h : jsTrim id = "") :
    svcGetTodoById id store = Except.error "Todo ID is required" ∧
    svcUpdateTodo dateValid id input now store =
      (Except.error "Todo ID is required", store) ∧
    svcDeleteTodo id store = (Except.error "Todo ID is required", store) := by
  unfold svcGetTodoById svcUpdateTodo svcDeleteTodo
  simp [h]

theorem claim_C10_witness :
    (jsTrim " " = "" ∧
      svcGetTodoById " " [] = Except.error "Todo ID is required" ∧
      svcUpdateTodo (fun _ => true) " " completeInput "t1" [] =
        (Except.error "Todo ID is required", []) ∧
      svcDeleteTodo " " [] = (Except.error "Todo ID is required", [])) :=
  ⟨by decide, claim_C10 " " [] (fun _ => true) completeInput "t1" (by decide)⟩

/-- C6 counterexample: the id `""` has no matching record, yet update fails with
the 'Todo ID is required' validation error instead of the not-found error. -/
theorem claim_C6_cex :
    findTodo "" ([] : List Todo) = none ∧
    (svcUpdateTodo (fun _ => true) "" completeInput "t1" []).1 =
      Except.error "Todo ID is required" ∧
    (svcUpdateTodo (fun _ => true) "" completeInput "t1" []).1 ≠
      Except.error ("Todo with ID " ++ "" ++ " not found") := by
  refine ⟨rfl, by decide, by decide⟩

/-- C6 amended: for every id that is nonblank after trimming and has no matching
record, update fails with the not-found error whatever the input fields hold
(even an empty title or an unparsable due date: the existence check precedes
field validation), and the store is left unchanged. -/
theorem claim_C6 (dateValid : String → Bool) (id : String) (input : UpdateInput)
    (now : String) (store : List Todo)
    (hid : jsTrim id ≠ "") (hfind : findTodo id store = none) :
    svcUpdateTodo dateValid id input now store =
      (Except.error ("Todo with ID " ++ id ++ " not found"), store) := by
  unfold svcUpdateTodo
  simp [hid, hfind]

theorem claim_C6_witness :
    (jsTrim "x" ≠ "" ∧ findTodo "x" [] = none ∧
      svcUpdateTodo (fun _ => false) "x"
        { completeInput with title := JsField.val "", dueDate := JsField.val "not a date" }
        "t1" [] =
      (Except.error ("Todo with ID " ++ "x" ++ " not found"), [])) :=
  ⟨by decide, rfl,
    claim_C6 (fun _ => false) "x"
      { completeInput with title := JsField.val "", dueDate := JsField.val "not a date" }
      "t1" [] (by decide) rfl⟩

theorem matchesFilter_empty (r : Todo) : matchesFilter emptyFilter r = true := rfl

theorem mem_dbGetAllTodos_empty (store : List Todo) (r : Todo) :
    r ∈ dbGetAllTodos emptyFilter store ↔ r ∈ store := by
  unfold dbGetAllTodos
  rw [List.mem_insertionSort, List.mem_filter]
  simp [matchesFilter_empty]

theorem searchMatch_iff (term : String) (r : Todo) :
    searchMatch term r = true ↔
      (term.data <:+: (lowStr r.title).data ∨
       (∃ d, r.description = some d ∧ term.data <:+: (lowStr d).data) ∨
       (∃ u ∈ r.tags, term.data <:+: (lowStr u).data)) := by
  unfold searchMatch
  cases hd : r.description <;>
    simp [hd, Bool.or_eq_true, Bool.and_eq_true, infB_iff, List.any_eq_true, or_assoc]

/-- Example record used to instantiate several witnesses. -/
def exTodo : Todo :=
  { id := "id1"
    title := "Alpha"
    description := none
    completed := false
    priority := Priority.high
    dueDate := some "2024-01-01"
    tags := ["Work"]
    createdAt := "2024-01-01"
    updatedAt := "2024-01-02" }

/-- C4: a blank (empty or whitespace-only) query returns the full unfiltered
record set; a non-blank query returns exactly the records where the search
term — the lowercased trimmed query — is a substring of the lowercased title,
or of the lowercased description when one is present (a record with no
description never matches via description), or of the lowercased form of some
tag. -/
theorem claim_C4 (q : String) (store : List Todo) :
    (jsTrim q = "" → svcSearchTodos q store = dbGetAllTodos emptyFilter store) ∧
    (jsTrim q ≠ "" → ∀ r : Todo,
      r ∈ svcSearchTodos q store ↔
        r ∈ store ∧
          ((jsTrim (lowStr q)).data <:+: (lowStr r.title).data ∨
           (∃ d, r.description = some d ∧ (jsTrim (lowStr q)).data <:+: (lowStr d).data) ∨
           (∃ u ∈ r.tags, (jsTrim (lowStr q)).data <:+: (lowStr u).data))) := by
  constructor
  · intro h
    unfold svcSearchTodos
    rw [if_pos h]
  · intro h r
    unfold svcSearchTodos
    rw [if_neg h, List.mem_filter, mem_dbGetAllTodos_empty]
    exact and_congr_right fun _ => searchMatch_iff _ r

theorem claim_C4_witness :
    (jsTrim "" = "" ∧ svcSearchTodos "" [exTodo] = dbGetAllTodos emptyFilter [exTodo]) ∧
    (jsTrim " ORK" ≠ "" ∧
      (exTodo ∈ svcSearchTodos " ORK" [exTodo] ↔
        exTodo ∈ [exTodo] ∧
          ((jsTrim (lowStr " ORK")).data <:+: (lowStr exTodo.title).data ∨
           (∃ d, exTodo.description = some d ∧
              (jsTrim (lowStr " ORK")).data <:+: (lowStr d).data) ∨
           (∃ u ∈ exTodo.tags, (jsTrim (lowStr " ORK")).data <:+: (lowStr u).data)))) :=
  ⟨⟨by decide, (claim_C4 "" [exTodo]).1 (by decide)⟩,
   ⟨by decide, (claim_C4 " ORK" [exTodo]).2 (by decide) exTodo⟩⟩

/-- C5: the overdue query returns exactly the incomplete records with a present
due date strictly earlier than `now`, ordered ascending by due date, while
every other (filtered) listing is ordered descending by creation time. -/
theorem claim_C5 (now : String) (store : List Todo) :
    (∀ r : Todo, r ∈ dbGetOverdueTodos now store ↔
        r ∈ store ∧ r.completed = false ∧ ∃ d, r.dueDate = some d ∧ d < now) ∧
    List.Pairwise
      (fun a b : Todo => ∀ da db, a.dueDate = some da → b.dueDate = some db → da ≤ db)
      (dbGetOverdueTodos now store) ∧
    (∀ f : TodoFilter,
      List.Pairwise (fun a b : Todo => b.createdAt ≤ a.createdAt) (dbGetAllTodos f store)) := by
  haveI hTot : IsTotal Todo dueAsc := by
    constructor
    intro a b
    unfold dueAsc
    cases a.dueDate with
    | none => exact Or.inl trivial
    | some x =>
      cases b.dueDate with
      | none => exact Or.inr trivial
      | some y => exact le_total x y
  haveI hTrans : IsTrans Todo dueAsc := by
    constructor
    intro a b c hab hbc
    unfold dueAsc at hab hbc ⊢
    rcases hda : a.dueDate with - | x
    · trivial
    · rw [hda] at hab
      rcases hdb : b.dueDate with - | y
      · rw [hdb] at hab
        exact hab.elim
      · rw [hdb] at hab hbc
        rcases hdc : c.dueDate with - | z
        · rw [hdc] at hbc
          exact hbc.elim
        · rw [hdc] at hbc
          exact le_trans hab hbc
  haveI hTot2 : IsTotal Todo createdDesc := ⟨fun a b => le_total b.createdAt a.createdAt⟩
  haveI hTrans2 : IsTrans Todo createdDesc :=
    ⟨fun _ _ _ hab hbc => le_trans hbc hab⟩
  refine ⟨?_, ?_, ?_⟩
  · intro r
    unfold dbGetOverdueTodos
    rw [List.mem_insertionSort, List.mem_filter]
    refine and_congr_right fun _ => ?_
    unfold overdueB
    cases hd : r.dueDate <;> simp [hd, Bool.and_eq_true]
  · have hs := List.sorted_insertionSort dueAsc (store.filter (overdueB now))
    exact hs.imp fun {a b} hab da db hda hdb => by
      unfold dueAsc at hab
      rw [hda, hdb] at hab
      exact hab
  · intro f
    exact (List.sorted_insertionSort createdDesc (store.filter (matchesFilter f))).imp
      fun {a b} hab => hab

theorem charListLe_total : ∀ a b : List Char, charListLe a b = true ∨ charListLe b a = true
  | [], b => Or.inl rfl
  | a :: as, [] => Or.inr rfl
  | a :: as, b :: bs => by
    unfold charListLe
    rcases Nat.lt_trichotomy a.toNat b.toNat with h | h | h
    · left
      simp [h]
    · have hna : ¬a.toNat < b.toNat := by omega
      have hnb : ¬b.toNat < a.toNat := by omega
      rcases charListLe_total as bs with ih | ih
      · left
        simp [hna, hnb, ih]
      · right
        simp [hna, hnb, ih]
    · right
      simp [h]

theorem charListLe_trans : ∀ a b c : List Char,
    charListLe a b = true → charListLe b c = true → charListLe a c = true
  | [], _, _, _, _ => rfl
  | _ :: _, [], _, hab, _ => by simp [charListLe] at hab
  | _ :: _, _ :: _, [], _, hbc => by simp [charListLe] at hbc
  | a :: as, b :: bs, c :: cs, hab, hbc => by
    unfold charListLe at hab hbc ⊢
    rcases Nat.lt_trichotomy a.toNat b.toNat with h1 | h1 | h1
    · rcases Nat.lt_trichotomy b.toNat c.toNat with h2 | h2 | h2
      · simp [show a.toNat < c.toNat by omega]
      · simp [show a.toNat < c.toNat by omega]
      · simp [show ¬b.toNat < c.toNat by omega, show c.toNat < b.toNat by omega] at hbc
    · have hab' : charListLe as bs = true := by
        simpa [show ¬a.toNat < b.toNat by omega, show ¬b.toNat < a.toNat by omega] using hab
      rcases Nat.lt_trichotomy b.toNat c.toNat with h2 | h2 | h2
      · simp [show a.toNat < c.toNat by omega]
      · have hbc' : charListLe bs cs = true := by
          simpa [show ¬b.toNat < c.toNat by omega, show ¬c.toNat < b.toNat by omega] using hbc
        simp [show ¬a.toNat < c.toNat by omega, show ¬c.toNat < a.toNat by omega,
          charListLe_trans as bs cs hab' hbc']
      · simp [show ¬b.toNat < c.toNat by omega, show c.toNat < b.toNat by omega] at hbc
    · simp [show ¬a.toNat < b.toNat by omega, show b.toNat < a.toNat by omega] at hab

theorem foldl_bumpPriority (l : List Todo) : ∀ acc : ByPriority,
    l.foldl bumpPriority acc =
      ⟨acc.low + (l.filter (fun r => r.priority == Priority.low)).length,
       acc.medium + (l.filter (fun r => r.priority == Priority.medium)).length,
       acc.high + (l.filter (fun r => r.priority == Priority.high)).length⟩ := by
  induction l with
  | nil => intro acc; simp
  | cons t l ih =>
    intro acc
    rw [List.foldl_cons, ih]
    cases ht : t.priority <;>
      simp [bumpPriority, ht, List.filter_cons] <;> omega

theorem perm_dbGetAllTodos_empty (store : List Todo) :
    List.Perm (dbGetAllTodos emptyFilter store) store := by
  unfold dbGetAllTodos
  rw [List.filter_eq_self.mpr fun a _ => matchesFilter_empty a]
  exact List.perm_insertionSort createdDesc store

/-- C7: the statistics are the record count, the completed count,
pending = total − completed, the count of records overdue at the same instant,
and per-priority counts with all three keys present; an empty store yields
all-zero statistics. -/
theorem claim_C7 (now : String) (store : List Todo) :
    (svcGetStats now store).total = store.length ∧
    (svcGetStats now store).completed = (store.filter (fun r => r.completed)).length ∧
    (svcGetStats now store).pending =
      store.length - (store.filter (fun r => r.completed)).length ∧
    (svcGetStats now store).overdue = (store.filter (overdueB now)).length ∧
    (svcGetStats now store).byPriority.low =
      (store.filter (fun r => r.priority == Priority.low)).length ∧
    (svcGetStats now store).byPriority.medium =
      (store.filter (fun r => r.priority == Priority.medium)).length ∧
    (svcGetStats now store).byPriority.high =
      (store.filter (fun r => r.priority == Priority.high)).length ∧
    svcGetStats now [] = ⟨0, 0, 0, 0, ⟨0, 0, 0⟩⟩ := by
  have hperm := perm_dbGetAllTodos_empty store
  have htot := hperm.length_eq
  have hcmp := (hperm.filter (fun r => r.completed)).length_eq
  have hovd := (List.perm_insertionSort dueAsc (store.filter (overdueB now))).length_eq
  have hbp := foldl_bumpPriority (dbGetAllTodos emptyFilter store) ⟨0, 0, 0⟩
  have hlo := (hperm.filter (fun r => r.priority == Priority.low)).length_eq
  have hmd := (hperm.filter (fun r => r.priority == Priority.medium)).length_eq
  have hhi := (hperm.filter (fun r => r.priority == Priority.high)).length_eq
  unfold svcGetStats
  refine ⟨htot, hcmp, by rw [htot, hcmp], hovd, ?_, ?_, ?_, rfl⟩ <;>
    simp [hbp, hlo, hmd, hhi]

theorem mem_foldl_setAdd : ∀ (l acc : List String) (x : String),
    x ∈ l.foldl setAdd acc ↔ x ∈ acc ∨ x ∈ l := by
  intro l
  induction l with
  | nil => simp
  | cons s l ih =>
    intro acc x
    rw [List.foldl_cons, ih]
    unfold setAdd
    by_cases hs : s ∈ acc
    · rw [if_pos hs]
      constructor
      · rintro (h | h)
        exacts [Or.inl h, Or.inr (List.mem_cons_of_mem _ h)]
      · rintro (h | h)
        · exact Or.inl h
        · rcases List.mem_cons.mp h with rfl | h
          exacts [Or.inl hs, Or.inr h]
    · rw [if_neg hs]
      simp [List.mem_append, or_assoc]

theorem nodup_foldl_setAdd : ∀ (l acc : List String), acc.Nodup → (l.foldl setAdd acc).Nodup := by
  intro l
  induction l with
  | nil => exact fun acc h => h
  | cons s l ih =>
    intro acc h
    rw [List.foldl_cons]
    apply ih
    unfold setAdd
    by_cases hs : s ∈ acc
    · rw [if_pos hs]; exact h
    · rw [if_neg hs]
      exact List.Nodup.append h (List.nodup_singleton s)
        (fun a ha hb => hs (by rwa [List.mem_singleton.mp hb] at ha))

theorem mem_svcGetAllTags (store : List Todo) (s : String) :
    s ∈ svcGetAllTags store ↔ ∃ r ∈ store, s ∈ r.tags := by
  unfold svcGetAllTags dbGetAllTags
  rw [List.mem_insertionSort, mem_foldl_setAdd]
  simp only [List.not_mem_nil, false_or, List.mem_flatten]
  constructor
  · rintro ⟨l, hl, hsl⟩
    rw [List.mem_dedup, List.mem_filter] at hl
    obtain ⟨r, hr, rfl⟩ := List.mem_map.mp hl.1
    exact ⟨r, hr, hsl⟩
  · rintro ⟨r, hr, hs⟩
    refine ⟨r.tags, ?_, hs⟩
    rw [List.mem_dedup, List.mem_filter]
    exact ⟨List.mem_map.mpr ⟨r, hr, rfl⟩, by simp [List.ne_nil_of_mem hs]⟩

/-- C8: tag enumeration returns exactly the distinct tags appearing across all
records (case-sensitive), without duplicates, sorted lexicographically
ascending; on tag sets {"Work","health"} and {"work"} it yields
["Work","health","work"]. -/
theorem claim_C8 (store : List Todo) :
    (∀ s : String, s ∈ svcGetAllTags store ↔ ∃ r ∈ store, s ∈ r.tags) ∧
    List.Sorted lexLe (svcGetAllTags store) ∧
    (svcGetAllTags store).Nodup ∧
    svcGetAllTags
      [{ exTodo with id := "1", tags := ["Work", "health"] },
       { exTodo with id := "2", tags := ["work"] }] = ["Work", "health", "work"] := by
  haveI : IsTotal String lexLe := ⟨fun a b => charListLe_total a.data b.data⟩
  haveI : IsTrans String lexLe := ⟨fun a b c => charListLe_trans a.data b.data c.data⟩
  refine ⟨mem_svcGetAllTags store, List.sorted_insertionSort _ _, ?_, by decide⟩
  exact (List.perm_insertionSort lexLe _).symm.nodup
    (nodup_foldl_setAdd _ [] List.nodup_nil)

theorem findTodo_append_fresh (id : String) (store : List Todo) (t : Todo)
    (hfresh : findTodo id store = none) (ht : t.id = id) :
    findTodo id (store ++ [t]) = some t := by
  unfold findTodo at hfresh ⊢
  rw [List.find?_append, hfresh]
  simp [ht]

def c3Input : CreateInput :=
  { title := "a"
    description := some " "
    priority := none
    dueDate := none
    tags := none }

/-- C3 counterexample: creating with the whitespace-only description `" "`
(validation accepts it) returns a record whose description is `""`, but the
INSERT binds `description || null`, so the immediate fetch by the returned id
yields a record with no description — the two records differ. -/
theorem claim_C3_cex :
    (svcCreateTodo (fun _ => true) "id9" "t0" c3Input []).1 =
      Except.ok
        { id := "id9"
          title := "a"
          description := some ""
          completed := false
          priority := Priority.medium
          dueDate := none
          tags := []
          createdAt := "t0"
          updatedAt := "t0" } ∧
    svcGetTodoById "id9" (svcCreateTodo (fun _ => true) "id9" "t0" c3Input []).2 =
      Except.ok (some
        { id := "id9"
          title := "a"
          description := none
          completed := false
          priority := Priority.medium
          dueDate := none
          tags := []
          createdAt := "t0"
          updatedAt := "t0" }) ∧
    (some "" : Option String) ≠ none := by
  exact ⟨by decide, by decide, by decide⟩

/-- C3 amended: creating then immediately fetching by the returned id yields a
record equal in all fields to the one returned from create, provided the
description, when present, is nonblank after trimming and the due date, when
present, is a nonempty string accepted by the date parser (a blank description
or empty due-date string is stored as NULL and comes back absent, unlike the
value returned from create). -/
theorem claim_C3 (dateValid : String → Bool) (id now : String) (input : CreateInput)
    (store : List Todo)
    (hfresh : findTodo id store = none)
    (hid : jsTrim id ≠ "")
    (htitle : jsTrim input.title ≠ "")
    (hdesc : ∀ s, input.description = some s → jsTrim s ≠ "")
    (hdue : ∀ s, input.dueDate = some s → s ≠ "" ∧ dateValid s = true) :
    ∃ t : Todo,
      svcCreateTodo dateValid id now input store = (Except.ok t, store ++ [t]) ∧
      svcGetTodoById id (svcCreateTodo dateValid id now input store).2 =
        Except.ok (some t) := by
  have hdesc2 : nullifyEmpty (input.description.map jsTrim) = input.description.map jsTrim := by
    cases hd : input.description with
    | none => rfl
    | some s => simp [nullifyEmpty, hdesc s hd]
  have hdue2 : nullifyEmpty input.dueDate = input.dueDate := by
    cases hd : input.dueDate with
    | none => rfl
    | some s => simp [nullifyEmpty, (hdue s hd).1]
  have hguard : (match input.dueDate with
      | some s => s != "" && !dateValid s
      | none => false) = false := by
    cases hd : input.dueDate with
    | none => rfl
    | some s => simp [(hdue s hd).1, (hdue s hd).2]
  have hmain : svcCreateTodo dateValid id now input store =
      (Except.ok
        { id := id
          title := jsTrim input.title
          description := input.description.map jsTrim
          completed := false
          priority := input.priority.getD Priority.medium
          dueDate := input.dueDate
          tags := ((input.tags.getD []).filter (jsTrim · ≠ "")).map jsTrim
          createdAt := now
          updatedAt := now },
       store ++
        [{ id := id
           title := jsTrim input.title
           description := input.description.map jsTrim
           completed := false
           priority := input.priority.getD Priority.medium
           dueDate := input.dueDate
           tags := ((input.tags.getD []).filter (jsTrim · ≠ "")).map jsTrim
           createdAt := now
           updatedAt := now }]) := by
    unfold svcCreateTodo dbCreateTodo
    simp only [if_neg htitle, hguard, Bool.false_eq_true, if_false, hfresh,
      Option.isSome_none, hdesc2, hdue2, Option.getD_some]
  refine ⟨_, hmain, ?_⟩
  rw [hmain]
  unfold svcGetTodoById
  rw [if_neg hid, findTodo_append_fresh id store _ hfresh rfl]

def c3wInput : CreateInput :=
  { title := " Buy milk "
    description := some " note "
    priority := some Priority.high
    dueDate := some "2024-06-27"
    tags := some [" work ", " "] }

theorem claim_C3_witness :
    findTodo "u1" [] = none ∧ jsTrim "u1" ≠ "" ∧ jsTrim " Buy milk " ≠ "" ∧
    jsTrim " note " ≠ "" ∧ ("2024-06-27" ≠ "" ∧ true = true) ∧
    (∃ t : Todo,
      svcCreateTodo (fun _ => true) "u1" "2024-01-01" c3wInput [] =
        (Except.ok t, [] ++ [t]) ∧
      svcGetTodoById "u1" (svcCreateTodo (fun _ => true) "u1" "2024-01-01" c3wInput []).2 =
        Except.ok (some t)) :=
  ⟨rfl, by decide, by decide, by decide, ⟨by decide, rfl⟩,
    claim_C3 (fun _ => true) "u1" "2024-01-01" c3wInput [] rfl (by decide) (by decide)
      (fun s hs => by
        have h : some " note " = some s := hs
        injection h with h2
        subst h2
        decide)
      (fun s hs => by
        have h : some "2024-06-27" = some s := hs
        injection h with h2
        subst h2
        exact ⟨by decide, rfl⟩)⟩

def c2Todo : Todo :=
  { id := "a"
    title := "t"
    description := none
    completed := true
    priority := Priority.medium
    dueDate := none
    tags := []
    createdAt := "c0"
    updatedAt := "c0" }

/-- The update object built by the protocol adapter when the client supplies
only `title`, `priority` and `tags`: the remaining keys are present and hold
`undefined`. -/
def c2AdapterInput : UpdateInput :=
  { title := JsField.val "t2"
    description := JsField.undef
    completed := JsField.undef
    priority := JsField.val Priority.medium
    dueDate := JsField.undef
    tags := JsField.val [] }

/-- C2 counterexample: with the `completed` key present but `undefined` (as the
protocol adapter produces for an unsupplied field), the spread
`{...existing, ...input}` clobbers `completed`: the stored record flips from
`completed = true` to `completed = false`, and the returned object carries
`completed = undefined`; with `tags` also `undefined`, the write even fails on
binding. -/
theorem claim_C2_cex :
    c2Todo.completed = true ∧
    c2AdapterInput.completed = JsField.undef ∧
    svcUpdateTodo (fun _ => true) "a" c2AdapterInput "c2" [c2Todo] =
      (Except.ok
        { id := "a"
          title := some "t2"
          description := none
          completed := none
          priority := some Priority.medium
          dueDate := none
          tags := some []
          createdAt := "c0"
          updatedAt := "c2" },
       [{ c2Todo with title := "t2", completed := false, updatedAt := "c2" }]) ∧
    (svcUpdateTodo (fun _ => true) "a" { c2AdapterInput with tags := JsField.undef }
        "c2" [c2Todo]).1 = Except.error bindErr := by
  exact ⟨rfl, rfl, by decide, by decide⟩

theorem nullifyEmpty_of_ne {o : Option String} (h : o ≠ some "") : nullifyEmpty o = o := by
  cases o with
  | none => rfl
  | some s =>
    have : s ≠ "" := fun hs => h (by rw [hs])
    simp [nullifyEmpty, this]

theorem findTodo_eq_some_id {id : String} {store : List Todo} {e : Todo}
    (h : findTodo id store = some e) : e.id = id := by
  unfold findTodo at h
  have := List.find?_some h
  simpa using this

theorem findTodo_map_replace (id : String) (row : Todo) (store : List Todo) (e : Todo)
    (h : findTodo id store = some e) (hrow : (row.id == id) = true) :
    findTodo id (store.map fun r => if r.id == id then row else r) = some row := by
  unfold findTodo at h ⊢
  induction store with
  | nil => simp at h
  | cons r store ih =>
    simp only [List.map_cons]
    by_cases hr : (r.id == id) = true
    · rw [if_pos hr]
      exact List.find?_cons_of_pos _ hrow
    · rw [if_neg hr, List.find?_cons_of_neg _ (by simpa using hr)]
      rw [List.find?_cons_of_neg _ (by simpa using hr)] at h
      exact ih h

/-- C2 amended: the frame property holds when every unsupplied field's key is
genuinely absent from the update object: then update on an existing id succeeds,
re-stamps only `updatedAt`, and every absent field keeps its value both in the
returned object and in the stored row.  (A key present with value `undefined`
is not covered: the spread overrides the field — see the counterexample.) -/
theorem claim_C2 (dateValid : String → Bool) (id now : String) (input : UpdateInput)
    (store : List Todo) (e : Todo)
    (hid : jsTrim id ≠ "")
    (hfind : findTodo id store = some e)
    (ht : input.title ≠ JsField.undef)
    (hd : input.description ≠ JsField.undef)
    (hc : input.completed ≠ JsField.undef)
    (hp : input.priority ≠ JsField.undef)
    (hdd : input.dueDate ≠ JsField.undef)
    (htg : input.tags ≠ JsField.undef)
    (htitleOk : ∀ s, input.title = JsField.val s → jsTrim s ≠ "")
    (hdueOk : ∀ s, input.dueDate = JsField.val s → s ≠ "" → dateValid s = true)
    (hedesc : e.description ≠ some "")
    (hedue : e.dueDate ≠ some "") :
    ∃ (m : MergedTodo) (store' : List Todo),
      svcUpdateTodo dateValid id input now store = (Except.ok m, store') ∧
      m.id = e.id ∧ m.createdAt = e.createdAt ∧ m.updatedAt = now ∧
      (input.title = JsField.absent → m.title = some e.title) ∧
      (input.description = JsField.absent → m.description = e.description) ∧
      (input.completed = JsField.absent → m.completed = some e.completed) ∧
      (input.priority = JsField.absent → m.priority = some e.priority) ∧
      (input.dueDate = JsField.absent → m.dueDate = e.dueDate) ∧
      (input.tags = JsField.absent → m.tags = some e.tags) ∧
      ∃ row : Todo, findTodo id store' = some row ∧
        row.id = e.id ∧ row.createdAt = e.createdAt ∧ row.updatedAt = now ∧
        (input.title = JsField.absent → row.title = e.title) ∧
        (input.description = JsField.absent → row.description = e.description) ∧
        (input.completed = JsField.absent → row.completed = e.completed) ∧
        (input.priority = JsField.absent → row.priority = e.priority) ∧
        (input.dueDate = JsField.absent → row.dueDate = e.dueDate) ∧
        (input.tags = JsField.absent → row.tags = e.tags) := by
  have heid : e.id = id := findTodo_eq_some_id hfind
  have hguard1 : (match input.title with
      | JsField.val s => jsTrim s == ""
      | _ => false) = false := by
    rcases hT : input.title with - | - | s
    · rfl
    · rfl
    · simp [htitleOk s hT]
  have hguard2 : (match input.dueDate with
      | JsField.val s => s != "" && !dateValid s
      | _ => false) = false := by
    rcases hD : input.dueDate with - | - | s
    · rfl
    · rfl
    · by_cases hs : s = ""
      · simp [hs]
      · simp [hs, hdueOk s hD hs]
  obtain ⟨tv, htv⟩ : ∃ v, (spreadMerge e (normUpdateInput input) now).title = some v := by
    rcases hT : input.title with - | - | s
    · exact ⟨e.title, by simp [spreadMerge, normUpdateInput, hT, mergeReq]⟩
    · exact absurd hT ht
    · by_cases hs : s ≠ ""
      · exact ⟨jsTrim s, by simp [spreadMerge, normUpdateInput, hT, hs, mergeReq]⟩
      · exact ⟨s, by simp [spreadMerge, normUpdateInput, hT, hs, mergeReq]⟩
  obtain ⟨pv, hpv⟩ : ∃ v, (spreadMerge e (normUpdateInput input) now).priority = some v := by
    rcases hP : input.priority with - | - | p
    · exact ⟨e.priority, by simp [spreadMerge, normUpdateInput, hP, mergeReq]⟩
    · exact absurd hP hp
    · exact ⟨p, by simp [spreadMerge, normUpdateInput, hP, mergeReq]⟩
  obtain ⟨gv, hgv⟩ : ∃ v, (spreadMerge e (normUpdateInput input) now).tags = some v := by
    rcases hG : input.tags with - | - | l
    · exact ⟨e.tags, by simp [spreadMerge, normUpdateInput, hG, mergeReq]⟩
    · exact absurd hG htg
    · exact ⟨(l.filter (jsTrim · ≠ "")).map jsTrim,
        by simp [spreadMerge, normUpdateInput, hG, mergeReq]⟩
  refine ⟨spreadMerge e (normUpdateInput input) now,
    store.map fun r => if r.id == id then
      { id := e.id
        title := tv
        description := nullifyEmpty (spreadMerge e (normUpdateInput input) now).description
        completed := (spreadMerge e (normUpdateInput input) now).completed == some true
        priority := pv
        dueDate := nullifyEmpty (spreadMerge e (normUpdateInput input) now).dueDate
        tags := gv
        createdAt := e.createdAt
        updatedAt := now } else r,
    ?_, rfl, rfl, rfl, ?_, ?_, ?_, ?_, ?_, ?_, ?_⟩
  · unfold svcUpdateTodo
    rw [if_neg hid, hfind]
    simp only [hguard1, hguard2, Bool.false_eq_true, if_false]
    unfold dbUpdateTodo
    rw [hfind]
    simp only [htv, hpv, hgv]
  · intro h
    simp [spreadMerge, normUpdateInput, h, mergeReq]
  · intro h
    simp [spreadMerge, normUpdateInput, h, mergeOpt]
  · intro h
    simp [spreadMerge, normUpdateInput, h, mergeReq]
  · intro h
    simp [spreadMerge, normUpdateInput, h, mergeReq]
  · intro h
    simp [spreadMerge, normUpdateInput, h, mergeOpt]
  · intro h
    simp [spreadMerge, normUpdateInput, h, mergeReq]
  · refine ⟨_, findTodo_map_replace id _ store e hfind (by simp [heid]), rfl, rfl, rfl,
      ?_, ?_, ?_, ?_, ?_, ?_⟩
    · intro h
      have h2 : some e.title = some tv := by
        rw [← htv]
        simp [spreadMerge, normUpdateInput, h, mergeReq]
      exact (Option.some.inj h2).symm
    · intro h
      have h2 : (spreadMerge e (normUpdateInput input) now).description = e.description := by
        simp [spreadMerge, normUpdateInput, h, mergeOpt]
      rw [h2, nullifyEmpty_of_ne hedesc]
    · intro h
      have h2 : (spreadMerge e (normUpdateInput input) now).completed = some e.completed := by
        simp [spreadMerge, normUpdateInput, h, mergeReq]
      rw [h2]
      cases e.completed <;> rfl
    · intro h
      have h2 : some e.priority = some pv := by
        rw [← hpv]
        simp [spreadMerge, normUpdateInput, h, mergeReq]
      exact (Option.some.inj h2).symm
    · intro h
      have h2 : (spreadMerge e (normUpdateInput input) now).dueDate = e.dueDate := by
        simp [spreadMerge, normUpdateInput, h, mergeOpt]
      rw [h2, nullifyEmpty_of_ne hedue]
    · intro h
      have h2 : some e.tags = some gv := by
        rw [← hgv]
        simp [spreadMerge, normUpdateInput, h, mergeReq]
      exact (Option.some.inj h2).symm

/-- The `{}` update object: every key absent. -/
def c2EmptyInput : UpdateInput :=
  { title := JsField.absent
    description := JsField.absent
    completed := JsField.absent
    priority := JsField.absent
    dueDate := JsField.absent
    tags := JsField.absent }

theorem claim_C2_witness :
    jsTrim "a" ≠ "" ∧ findTodo "a" [c2Todo] = some c2Todo ∧
    c2Todo.description ≠ some "" ∧ c2Todo.dueDate ≠ some "" ∧
    (∃ (m : MergedTodo) (store' : List Todo),
      svcUpdateTodo (fun _ => true) "a" c2EmptyInput "upd1" [c2Todo] =
        (Except.ok m, store') ∧
      m.id = c2Todo.id ∧ m.createdAt = c2Todo.createdAt ∧ m.updatedAt = "upd1" ∧
      (c2EmptyInput.title = JsField.absent → m.title = some c2Todo.title) ∧
      (c2EmptyInput.description = JsField.absent → m.description = c2Todo.description) ∧
      (c2EmptyInput.completed = JsField.absent → m.completed = some c2Todo.completed) ∧
      (c2EmptyInput.priority = JsField.absent → m.priority = some c2Todo.priority) ∧
      (c2EmptyInput.dueDate = JsField.absent → m.dueDate = c2Todo.dueDate) ∧
      (c2EmptyInput.tags = JsField.absent → m.tags = some c2Todo.tags) ∧
      ∃ row : Todo, findTodo "a" store' = some row ∧
        row.id = c2Todo.id ∧ row.createdAt = c2Todo.createdAt ∧ row.updatedAt = "upd1" ∧
        (c2EmptyInput.title = JsField.absent → row.title = c2Todo.title) ∧
        (c2EmptyInput.description = JsField.absent → row.description = c2Todo.description) ∧
        (c2EmptyInput.completed = JsField.absent → row.completed = c2Todo.completed) ∧
        (c2EmptyInput.priority = JsField.absent → row.priority = c2Todo.priority) ∧
        (c2EmptyInput.dueDate = JsField.absent → row.dueDate = c2Todo.dueDate) ∧
        (c2EmptyInput.tags = JsField.absent → row.tags = c2Todo.tags)) :=
  ⟨by decide, rfl, by decide, by decide,
    claim_C2 (fun _ => true) "a" "upd1" c2EmptyInput [c2Todo] c2Todo (by decide) rfl
      (by decide) (by decide) (by decide) (by decide) (by decide) (by decide)
      (fun s hs => by simp [c2EmptyInput] at hs)
      (fun s hs => by simp [c2EmptyInput] at hs)
      (by decide) (by decide)⟩

/-! ### C1: the tag filter.  Characterization of `tags LIKE '%"t"%'` over the
JSON-serialized tag column, for tags built from characters with no special
role in the pattern or the encoding. -/

/-- Characters with no special role: not the JSON string delimiter or escape
character, not the array separator, not a `LIKE` wildcard, and not a control
character (which `JSON.stringify` would escape). -/
def plainChar (c : Char) : Prop :=
  c ≠ '"' ∧ c ≠ '\\' ∧ c ≠ ',' ∧ c ≠ '%' ∧ c ≠ '_' ∧ 32 ≤ c.toNat

instance : DecidablePred plainChar := fun c => by
  unfold plainChar
  infer_instance

def plainStr (s : String) : Prop := ∀ c ∈ s.data, plainChar c

instance : DecidablePred plainStr := fun s => by
  unfold plainStr
  exact List.decidableBAll _ _

theorem toNat_ofNat_of_low {n : Nat} (h1 : 97 ≤ n) (h2 : n ≤ 122) :
    (Char.ofNat n).toNat = n := by
  interval_cases n <;> rfl

theorem lowChar_toNat_of_upper {c : Char} (h1 : 65 ≤ c.toNat) (h2 : c.toNat ≤ 90) :
    (lowChar c).toNat = c.toNat + 32 := by
  unfold lowChar
  rw [if_pos ⟨h1, h2⟩]
  exact toNat_ofNat_of_low (by omega) (by omega)

theorem ne_of_toNat_ne {a b : Char} (h : a.toNat ≠ b.toNat) : a ≠ b :=
  fun he => h (by rw [he])

theorem lowChar_plain {c : Char} (h : plainChar c) : plainChar (lowChar c) := by
  by_cases hc : 65 ≤ c.toNat ∧ c.toNat ≤ 90
  · have ht := lowChar_toNat_of_upper hc.1 hc.2
    have h1 := hc.1
    have h2 := hc.2
    refine ⟨ne_of_toNat_ne ?_, ne_of_toNat_ne ?_, ne_of_toNat_ne ?_,
      ne_of_toNat_ne ?_, ne_of_toNat_ne ?_, ?_⟩
    · rw [ht, show ('"').toNat = 34 from rfl]; omega
    · rw [ht, show ('\\').toNat = 92 from rfl]; omega
    · rw [ht, show (',').toNat = 44 from rfl]; omega
    · rw [ht, show ('%').toNat = 37 from rfl]; omega
    · rw [ht, show ('_').toNat = 95 from rfl]; omega
    · rw [ht]; omega
  · unfold lowChar
    rw [if_neg hc]
    exact h

theorem lowChar_quote : lowChar '"' = '"' := by decide

theorem lowChar_comma : lowChar ',' = ',' := by decide

theorem lowChar_lbrack : lowChar '[' = '[' := by decide

theorem lowChar_rbrack : lowChar ']' = ']' := by decide

/-- The serialization of a list of plain strings, with no escaping. -/
def pItems : List (List Char) → List Char
  | [] => []
  | [u] => '"' :: u ++ ['"']
  | u :: us => '"' :: u ++ '"' :: ',' :: pItems us

theorem pItems_cons (u : List Char) (us : List (List Char)) (h : us ≠ []) :
    pItems (u :: us) = '"' :: u ++ '"' :: ',' :: pItems us := by
  cases us with
  | nil => exact absurd rfl h
  | cons v vs => rfl

theorem jsonEscapeChar_plain {c : Char} (h : plainChar c) : jsonEscapeChar c = [c] := by
  obtain ⟨h1, h2, -, -, -, h6⟩ := h
  unfold jsonEscapeChar
  rw [if_neg h1, if_neg h2, if_neg (by omega)]

theorem flatMap_escape_plain {u : List Char} (h : ∀ c ∈ u, plainChar c) :
    u.flatMap jsonEscapeChar = u := by
  induction u with
  | nil => rfl
  | cons c u ih =>
    rw [List.flatMap_cons, jsonEscapeChar_plain (h c (by simp)),
      ih fun d hd => h d (List.mem_cons_of_mem _ hd)]
    rfl

theorem jsonQuoteL_plain {u : List Char} (h : ∀ c ∈ u, plainChar c) :
    jsonQuoteL u = '"' :: u ++ ['"'] := by
  unfold jsonQuoteL
  rw [flatMap_escape_plain h]

theorem jsonItemsL_plain : ∀ us : List (List Char),
    (∀ u ∈ us, ∀ c ∈ u, plainChar c) → jsonItemsL us = pItems us
  | [], _ => rfl
  | [u], h => by
    show jsonQuoteL u = pItems [u]
    rw [jsonQuoteL_plain (h u (by simp))]
    rfl
  | u :: v :: vs, h => by
    show jsonQuoteL u ++ ',' :: jsonItemsL (v :: vs) = pItems (u :: v :: vs)
    rw [jsonQuoteL_plain (h u (by simp)),
      jsonItemsL_plain (v :: vs) fun w hw => h w (List.mem_cons_of_mem _ hw),
      pItems_cons u (v :: vs) (by simp)]
    simp

theorem map_lowChar_pItems : ∀ us : List (List Char),
    (pItems us).map lowChar = pItems (us.map (List.map lowChar))
  | [] => rfl
  | [u] => by
    show ('"' :: u ++ ['"']).map lowChar = '"' :: u.map lowChar ++ ['"']
    simp [lowChar_quote]
  | u :: v :: vs => by
    rw [pItems_cons u (v :: vs) (by simp), show (u :: v :: vs).map (List.map lowChar) =
      u.map lowChar :: (v :: vs).map (List.map lowChar) from rfl,
      pItems_cons (u.map lowChar) _ (by simp)]
    simp [lowChar_quote, lowChar_comma, map_lowChar_pItems (v :: vs)]

theorem noq_append_inj : ∀ (u t r b : List Char), '"' ∉ u → '"' ∉ t →
    u ++ '"' :: r = t ++ '"' :: b → u = t ∧ r = b
  | [], t, r, b, _, ht, heq => by
    cases t with
    | nil =>
      rw [List.nil_append, List.nil_append] at heq
      injection heq with hdis h2
      exact ⟨rfl, h2⟩
    | cons d t' =>
      rw [List.nil_append, List.cons_append] at heq
      injection heq with h1 hds2
      exact absurd (h1 ▸ List.mem_cons_self d t') ht
  | c :: u', t, r, b, hu, ht, heq => by
    cases t with
    | nil =>
      rw [List.cons_append, List.nil_append] at heq
      injection heq with h1 hds2
      exact absurd (h1.symm ▸ List.mem_cons_self c u') hu
    | cons d t' =>
      rw [List.cons_append, List.cons_append] at heq
      injection heq with h1 h2
      obtain ⟨hu2, hr⟩ := noq_append_inj u' t' r b
        (fun hm => hu (List.mem_cons_of_mem _ hm))
        (fun hm => ht (List.mem_cons_of_mem _ hm)) h2
      exact ⟨by rw [h1, hu2], hr⟩

theorem pref_quote_split : ∀ (u a r m : List Char), '"' ∉ u →
    u ++ '"' :: r = a ++ '"' :: m →
    (a = u ∧ m = r) ∨ ∃ a₂, a = u ++ '"' :: a₂ ∧ r = a₂ ++ '"' :: m
  | [], a, r, m, _, heq => by
    cases a with
    | nil =>
      rw [List.nil_append, List.nil_append] at heq
      injection heq with hdis h2
      exact Or.inl ⟨rfl, h2.symm⟩
    | cons x a' =>
      rw [List.nil_append, List.cons_append] at heq
      injection heq with h1 h2
      exact Or.inr ⟨a', by rw [List.nil_append, ← h1], h2⟩
  | c :: u', a, r, m, hu, heq => by
    cases a with
    | nil =>
      rw [List.cons_append, List.nil_append] at heq
      injection heq with h1 hds2
      exact absurd (h1.symm ▸ List.mem_cons_self c u') hu
    | cons x a' =>
      rw [List.cons_append, List.cons_append] at heq
      injection heq with h1 h2
      rcases pref_quote_split u' a' r m (fun hm => hu (List.mem_cons_of_mem _ hm)) h2 with
        ⟨ha, hm⟩ | ⟨a₂, ha, hr⟩
      · exact Or.inl ⟨by rw [ha, h1], hm⟩
      · exact Or.inr ⟨a₂, by rw [ha, h1, List.cons_append], hr⟩

/-- Any case-sensitive occurrence of the quoted needle `"t'"` inside the plain
serialization of `us` (followed by the closing bracket) starts at the opening
quote of one of the entries, so `t'` is one of the entries. -/
theorem occBody (t' : List Char) (ht0 : t' ≠ []) (htc : ',' ∉ t') :
    ∀ us : List (List Char), (∀ u ∈ us, '"' ∉ u) → '"' ∉ t' →
      ∀ a b : List Char, pItems us ++ [']'] = a ++ '"' :: (t' ++ '"' :: b) → t' ∈ us
  | [], _, _, a, b, heq => by
    have hmem : '"' ∈ ([']'] : List Char) := by
      rw [show pItems [] ++ [']'] = ([']'] : List Char) from rfl] at heq
      rw [heq]
      simp
    simp at hmem
  | u :: us', hq, htq, a, b, heq => by
    have hu : '"' ∉ u := hq u (List.mem_cons_self u us')
    cases us' with
    | nil =>
      have heq2 : '"' :: (u ++ '"' :: [']']) = a ++ '"' :: (t' ++ '"' :: b) := by
        rw [← heq]
        show _ = ('"' :: u ++ ['"']) ++ [']']
        simp
      cases a with
      | nil =>
        rw [List.nil_append] at heq2
        injection heq2 with hdis h2
        obtain ⟨he, -⟩ := noq_append_inj u t' [']'] b hu htq h2
        rw [← he]
        exact List.mem_cons_self u []
      | cons x a' =>
        rw [List.cons_append] at heq2
        injection heq2 with hdis h2
        rcases pref_quote_split u a' [']'] (t' ++ '"' :: b) hu h2 with ⟨-, hm⟩ | ⟨a₂, -, hr⟩
        · exfalso
          have hmem : '"' ∈ ([']'] : List Char) := by
            rw [← hm]
            simp
          simp at hmem
        · exfalso
          have hmem : '"' ∈ ([']'] : List Char) := by
            rw [hr]
            simp
          simp at hmem
    | cons v vs =>
      have heq2 : '"' :: (u ++ '"' :: (',' :: (pItems (v :: vs) ++ [']']))) =
          a ++ '"' :: (t' ++ '"' :: b) := by
        rw [← heq, pItems_cons u (v :: vs) (by simp)]
        simp
      cases a with
      | nil =>
        rw [List.nil_append] at heq2
        injection heq2 with hdis h2
        obtain ⟨he, -⟩ := noq_append_inj u t' _ b hu htq h2
        rw [← he]
        exact List.mem_cons_self u _
      | cons x a' =>
        rw [List.cons_append] at heq2
        injection heq2 with hdis h2
        rcases pref_quote_split u a' _ _ hu h2 with ⟨-, hm⟩ | ⟨a₂, -, hr⟩
        · exfalso
          cases t' with
          | nil => exact ht0 rfl
          | cons c t'' =>
            rw [List.cons_append] at hm
            injection hm with h3 hds3
            exact htc (h3 ▸ List.mem_cons_self c t'')
        · cases a₂ with
          | nil =>
            rw [List.nil_append] at hr
            injection hr with h3 hds3
            exact absurd h3 (by decide)
          | cons y a₃ =>
            rw [List.cons_append] at hr
            injection hr with hdis h4
            exact List.mem_cons_of_mem u
              (occBody t' ht0 htc (v :: vs) (fun w hw => hq w (List.mem_cons_of_mem _ hw))
                htq a₃ b h4)

theorem infix_extend_left (pre l₁ l₂ : List Char) (h : l₁ <:+: l₂) : l₁ <:+: pre ++ l₂ := by
  obtain ⟨s, t, hst⟩ := h
  refine ⟨pre ++ s, t, ?_⟩
  simp only [List.append_assoc] at hst ⊢
  rw [hst]

theorem quoted_infix_of_mem (t' : List Char) : ∀ us : List (List Char), t' ∈ us →
    ('"' :: (t' ++ ['"'])) <:+: (pItems us ++ [']'])
  | [], hmem => absurd hmem (List.not_mem_nil t')
  | u :: us', hmem => by
    rcases List.mem_cons.mp hmem with rfl | h
    · cases us' with
      | nil => exact ⟨[], [']'], by simp [pItems]⟩
      | cons v vs =>
        refine ⟨[], ',' :: (pItems (v :: vs) ++ [']']), ?_⟩
        rw [pItems_cons t' (v :: vs) (by simp)]
        simp
    · cases us' with
      | nil => simp at h
      | cons v vs =>
        have hshape : pItems (u :: v :: vs) ++ [']'] =
            ('"' :: u ++ ['"', ',']) ++ (pItems (v :: vs) ++ [']']) := by
          rw [pItems_cons u (v :: vs) (by simp)]
          simp
        rw [hshape]
        exact infix_extend_left _ _ _ (quoted_infix_of_mem t' (v :: vs) h)

/-- The `LIKE '%"t"%'` condition over the serialized tag column is exactly
ASCII case-insensitive membership of `t` in the tag set, for a nonempty plain
`t` and plain stored tags. -/
theorem tagFilter_iff (t : String) (ht0 : t ≠ "") (htp : plainStr t)
    (tags : List String) (htags : ∀ u ∈ tags, plainStr u) :
    sqlLike ('%' :: '"' :: t.data ++ ['"', '%']) (jsonTags tags) = true ↔
      ∃ u ∈ tags, lowStr u = lowStr t := by
  have hnw : noWild ('"' :: t.data ++ ['"']) := by
    intro c hc
    rcases List.mem_cons.mp hc with rfl | hc2
    · exact ⟨by decide, by decide⟩
    · rcases List.mem_append.mp hc2 with hc3 | hc4
      · exact ⟨(htp c hc3).2.2.2.1, (htp c hc3).2.2.2.2.1⟩
      · rw [List.mem_singleton.mp hc4]
        exact ⟨by decide, by decide⟩
  have hpat : ('%' :: '"' :: t.data ++ ['"', '%']) =
      '%' :: ('"' :: t.data ++ ['"']) ++ ['%'] := by simp
  rw [hpat, sqlLike_pct_wrap _ hnw _]
  have hmapmid : ('"' :: t.data ++ ['"']).map lowChar =
      '"' :: t.data.map lowChar ++ ['"'] := by simp [lowChar_quote]
  have hjson : jsonTags tags = '[' :: pItems (tags.map (·.data)) ++ [']'] := by
    unfold jsonTags
    rw [jsonItemsL_plain _ fun u hu c hcu => by
      obtain ⟨w, hw, rfl⟩ := List.mem_map.mp hu
      exact htags w hw c hcu]
  have hmaph : (jsonTags tags).map lowChar =
      '[' :: pItems ((tags.map (·.data)).map (List.map lowChar)) ++ [']'] := by
    rw [hjson]
    simp [lowChar_lbrack, lowChar_rbrack, map_lowChar_pItems]
  rw [hmapmid, hmaph]
  have hdata : t.data ≠ [] := by
    intro h
    apply ht0
    cases t with
    | mk l =>
      simp only at h
      rw [h]
  have hT0 : t.data.map lowChar ≠ [] := by simp [hdata]
  have hTq : '"' ∉ t.data.map lowChar := by
    intro hm
    obtain ⟨c, hc, heq⟩ := List.mem_map.mp hm
    exact (lowChar_plain (htp c hc)).1 heq
  have hTc : ',' ∉ t.data.map lowChar := by
    intro hm
    obtain ⟨c, hc, heq⟩ := List.mem_map.mp hm
    exact (lowChar_plain (htp c hc)).2.2.1 heq
  have hUSq : ∀ u' ∈ (tags.map (·.data)).map (List.map lowChar), '"' ∉ u' := by
    intro u' hu' hm
    obtain ⟨ud, hud, rfl⟩ := List.mem_map.mp hu'
    obtain ⟨u, hu, rfl⟩ := List.mem_map.mp hud
    obtain ⟨c, hc, heq⟩ := List.mem_map.mp hm
    exact (lowChar_plain (htags u hu c hc)).1 heq
  constructor
  · rintro ⟨a, b, hab⟩
    cases a with
    | nil =>
      rw [List.nil_append, List.cons_append, List.cons_append] at hab
      injection hab with h1 h2
      exact absurd h1 (by decide)
    | cons x a₁ =>
      rw [List.cons_append, List.cons_append, List.cons_append] at hab
      injection hab with h1 h2
      have h3 : pItems ((tags.map (·.data)).map (List.map lowChar)) ++ [']'] =
          a₁ ++ '"' :: (t.data.map lowChar ++ '"' :: b) := by
        simpa [List.append_assoc, List.append_eq] using h2.symm
      have hmemUS := occBody (t.data.map lowChar) hT0 hTc _ hUSq hTq a₁ b h3
      obtain ⟨ud, hud, hudT⟩ := List.mem_map.mp hmemUS
      obtain ⟨u, hu, rfl⟩ := List.mem_map.mp hud
      exact ⟨u, hu, congrArg String.mk hudT⟩
  · rintro ⟨u, hu, heqlow⟩
    have hud : u.data.map lowChar = t.data.map lowChar := by
      have h2 := congrArg String.data heqlow
      simpa [lowStr] using h2
    have hmem : t.data.map lowChar ∈ (tags.map (·.data)).map (List.map lowChar) := by
      rw [← hud]
      exact List.mem_map_of_mem _ (List.mem_map_of_mem _ hu)
    have hinf := List.infix_cons (a := '[')
      (quoted_infix_of_mem (t.data.map lowChar) _ hmem)
    simpa using hinf

def c1Todo : Todo := { exTodo with id := "c1", tags := ["work"] }

def c1qTodo : Todo := { exTodo with id := "c1q", tags := ["a\"b"] }

/-- C1 counterexample: the tag filter is not exact case-sensitive membership.
`tags LIKE '%"WORK"%'` matches a record whose only tag is `"work"` (SQLite
`LIKE` is ASCII case-insensitive); `w%k` — not a member — also matches (`%` is
a wildcard inside the pattern); and a record whose tag is `a"b` is *not*
returned when filtering for exactly that member (the JSON escaping breaks the
quoted pattern). -/
theorem claim_C1_cex :
    ("WORK" ∉ c1Todo.tags ∧ c1Todo ∈ dbGetAllTodos { tag := some "WORK" } [c1Todo]) ∧
    ("w%k" ∉ c1Todo.tags ∧ c1Todo ∈ dbGetAllTodos { tag := some "w%k" } [c1Todo]) ∧
    ("a\"b" ∈ c1qTodo.tags ∧ c1qTodo ∉ dbGetAllTodos { tag := some "a\"b" } [c1qTodo]) := by
  exact ⟨⟨by decide, by decide⟩, ⟨by decide, by decide⟩, ⟨by decide, by decide⟩⟩

/-- C1 amended: for every nonempty filter tag `t` and store whose tags and `t`
are built from plain characters (no `"`, `\`, `,`, `%`, `_`, no control
characters), the filtered query returns `r` iff some member of `r`'s tag set
equals `t` up to ASCII case — i.e. membership holds case-insensitively, not
case-sensitively, and only for tags with no special characters. -/
theorem claim_C1 (t : String) (store : List Todo)
    (ht0 : t ≠ "") (htp : plainStr t)
    (hstore : ∀ r ∈ store, ∀ u ∈ r.tags, plainStr u) :
    ∀ r : Todo, r ∈ dbGetAllTodos { tag := some t } store ↔
      r ∈ store ∧ ∃ u ∈ r.tags, lowStr u = lowStr t := by
  intro r
  unfold dbGetAllTodos
  rw [List.mem_insertionSort, List.mem_filter]
  refine and_congr_right fun hr => ?_
  have hmf : matchesFilter { tag := some t } r =
      (if t = "" then true
       else sqlLike ('%' :: '"' :: t.data ++ ['"', '%']) (jsonTags r.tags)) := by
    unfold matchesFilter
    simp
  rw [hmf, if_neg ht0]
  exact tagFilter_iff t ht0 htp r.tags (hstore r hr)

theorem claim_C1_witness :
    ("Work" ≠ "" ∧ plainStr "Work" ∧ (∀ r ∈ [exTodo], ∀ u ∈ r.tags, plainStr u)) ∧
    (exTodo ∈ dbGetAllTodos { tag := some "Work" } [exTodo] ↔
      exTodo ∈ [exTodo] ∧ ∃ u ∈ exTodo.tags, lowStr u = lowStr "Work") :=
  ⟨⟨by decide, by decide, by decide⟩,
    claim_C1 "Work" [exTodo] (by decide) (by decide) (by decide) exTodo⟩

end TodoSpec
